import Mathlib

/-!
# Verification of the neighborly social-simulation engine

A shallow embedding of the core modules of the `neighborly` repository
(`neighborly/core/life_event.py`, `neighborly/core/relationship.py`,
`neighborly/core/ecs.py`), together with theorems settling the spec's
claims about them.

Conventions of the embedding:

* Python `None`-able results become `Option`; a raised exception
  (`KeyError`, `ResourceNotFoundError`, ...) becomes `none` in an
  `Option`-returning operation.
* The shared `random.Random` resource is modelled as two infinite
  streams with positions: one stream of rationals for `rng.random()`
  (Python floats are modelled as rationals; only their ordering is
  relevant to the claims) and one stream of naturals driving
  `rng.choice` (the drawn natural selects an index into the choice
  sequence, modulo its length).  Every call advances the position of
  the corresponding stream, so consumption of randomness is observable.
* Component types are identified by their names (strings); gameobjects
  are identified by their integer ids, exactly as in the source where
  `GameObject.__hash__` returns `self._id`.
* Lifecycle callbacks (`on_add`, `on_remove`, `on_archive`) are those of
  the base `Component` class (no-ops) except where a claim is about a
  concrete override (`Relationship.on_add` / `on_remove`), which is
  embedded explicitly.
-/

namespace Neighborly

/-! ## Shared RNG (resource `NeighborlyEngine.rng`, a `random.Random`) -/

/-- The shared RNG: an infinite stream of rationals consumed by
`rng.random()` and an infinite stream of naturals consumed by
`rng.choice`, each with its current position. -/
structure RNG where
  floats : Nat → ℚ
  fpos : Nat
  ints : Nat → Nat
  ipos : Nat

/-- Python `rng.random()`: returns the next value of the float stream and
advances its position. -/
def rngRandom (r : RNG) : ℚ × RNG :=
  (r.floats r.fpos, { r with fpos := r.fpos + 1 })

/-- Python `rng.choice(seq)`: consumes the next natural of the choice stream to
select an element of `seq`.  (`random.choice` raises on an empty
sequence; in the embedded code it is only ever called on a nonempty
list, and the `List.getD` default is never reached there.) -/
def rngChoice (r : RNG) (l : List Nat) : Nat × RNG :=
  (l.getD (r.ints r.ipos % l.length) 0, { r with ipos := r.ipos + 1 })

/-! ## `neighborly/core/life_event.py` -/

/-- Embeds `EventRole`: a role name together with the id of the GameObject
bound to it (`life_event.py`, class `EventRole`). -/
structure EventRole where
  name : String
  gid : Nat
deriving DecidableEq, Repr

/-- Embeds `LifeEvent`: name, timestamp and the ordered list of bound roles
(`life_event.py`, class `LifeEvent`; the `metadata` kwargs dict is
always empty in the embedded code paths and is omitted). -/
structure LifeEvent where
  name : String
  timestamp : String
  roles : List EventRole
deriving DecidableEq, Repr

/-- A gameobject as seen by the life-event engine: its id and the names
of the component types attached to it. -/
structure GameObjectM where
  id : Nat
  comps : List String
deriving DecidableEq, Repr

/-- The world state consulted by the life-event engine: the gameobject
table, and the `SimDateTime` resource already rendered to its ISO
string (`world.get_resource(SimDateTime).to_iso_str()`). -/
structure WorldM where
  gameobjects : List GameObjectM
  timestamp : String
deriving DecidableEq, Repr

/-- Embeds `world.get_components(*types)` (delegated to the external `esper`
library): per the query contract, every gameobject holding all of the
requested component types, in insertion order. -/
def getComponents (w : WorldM) (types : List String) : List GameObjectM :=
  w.gameobjects.filter (fun g => types.all (fun t => g.comps.contains t))

/-- Embeds `candidate.has_component(*components)`:
`all([ct in self._components for ct in component_type])`. -/
def hasComponentAll (g : GameObjectM) (types : List String) : Bool :=
  types.all (fun t => g.comps.contains t)

/-- Embeds `EventRoleType`: role name, required component types, filter
predicate (defaulting to always-true) and optional binder function
(`life_event.py`, class `EventRoleType`).  The binder returns the bound
GameObject, of which `fill_role` keeps only `obj.id`. -/
structure EventRoleTypeM where
  name : String
  components : List String
  filter_fn : WorldM → LifeEvent → GameObjectM → Bool
  binder_fn : Option (WorldM → LifeEvent → Option GameObjectM)

/-- The candidate ids surviving the filter in `EventRoleType.fill_role`:
`map(entry[0], filter(filter_fn(world, event, get_gameobject(entry[0])),
world.get_components(*components)))`. -/
def passingCandidates (rt : EventRoleTypeM) (w : WorldM) (e : LifeEvent) : List Nat :=
  ((getComponents w rt.components).filter (fun g => rt.filter_fn w e g)).map (fun g => g.id)

/-- Embeds `EventRoleType.fill_role` (`life_event.py` lines 151-179).  Note the
guard is Python's `any(candidate_list)`: truthiness of the integer ids,
i.e. "some candidate id is nonzero", not "the list is nonempty". -/
def fill_role (rt : EventRoleTypeM) (w : WorldM) (rng : RNG) (e : LifeEvent) :
    Option EventRole × RNG :=
  match rt.binder_fn with
  | some binder =>
    match binder w e with
    | some obj => (some ⟨rt.name, obj.id⟩, rng)
    | none => (none, rng)
  | none =>
    if (passingCandidates rt w e).any (fun gid => gid != 0) then
      (some ⟨rt.name, (rngChoice rng (passingCandidates rt w e)).1⟩,
       (rngChoice rng (passingCandidates rt w e)).2)
    else
      (none, rng)

/-- Embeds `EventRoleType.fill_role_with` (`life_event.py` lines 181-192):
bind the caller-supplied candidate iff it has all required components
and passes the filter. -/
def fill_role_with (rt : EventRoleTypeM) (w : WorldM) (e : LifeEvent)
    (candidate : GameObjectM) : Option EventRole :=
  if hasComponentAll candidate rt.components && rt.filter_fn w e candidate then
    some ⟨rt.name, candidate.id⟩
  else
    none

/-- Embeds `LifeEventType`: name, declared roles in order, probability and
optional effect function (`life_event.py`, classes
`AbstractLifeEventType` / `LifeEventType`).  The effect function
mutates the world. -/
structure LifeEventTypeM where
  name : String
  roles : List EventRoleTypeM
  probability : ℚ
  execute_fn : Option (WorldM → LifeEvent → WorldM)

/-- Lookup of `kwargs.get(role_type.name)` in
`AbstractLifeEventType.instantiate`. -/
def lookupKw (kwargs : List (String × GameObjectM)) (n : String) : Option GameObjectM :=
  (kwargs.find? (fun p => p.1 == n)).map (fun p => p.2)

/-- The role-binding loop of `AbstractLifeEventType.instantiate`
(`life_event.py` lines 226-246), threading the shared RNG; `e` is the
event under construction. -/
def instantiateAux (w : WorldM) (kwargs : List (String × GameObjectM)) :
    List EventRoleTypeM → RNG → LifeEvent → Option LifeEvent × RNG
  | [], rng, e => (some e, rng)
  | rt :: rest, rng, e =>
    match lookupKw kwargs rt.name with
    | some bound =>
      match fill_role_with rt w e bound with
      | some r => instantiateAux w kwargs rest rng { e with roles := e.roles ++ [r] }
      | none => (none, rng)
    | none =>
      match fill_role rt w rng e with
      | (some r, rng2) => instantiateAux w kwargs rest rng2 { e with roles := e.roles ++ [r] }
      | (none, rng2) => (none, rng2)

/-- Embeds `AbstractLifeEventType.instantiate` (`life_event.py` lines 216-246):
starts from an event with no roles and the current date's ISO string,
then binds the declared roles left to right. -/
def instantiate (et : LifeEventTypeM) (w : WorldM) (rng : RNG)
    (kwargs : List (String × GameObjectM)) : Option LifeEvent × RNG :=
  instantiateAux w kwargs et.roles rng ⟨et.name, w.timestamp, []⟩

/-- State touched by `LifeEventSimulator`: the world, the shared RNG
resource and the `LifeEventLog.event_history` list. -/
structure SimState where
  world : WorldM
  rng : RNG
  log : List LifeEvent

/-- The world update performed by `try_execute_event` when an event was
instantiated: `if event_type.execute_fn is not None:
event_type.execute_fn(world, event)`. -/
def execApply (et : LifeEventTypeM) (w : WorldM) (e : LifeEvent) : WorldM :=
  match et.execute_fn with
  | some f => f w e
  | none => w

/-- Embeds `LifeEventSimulator.try_execute_event` (`life_event.py` lines
364-370): instantiate, and when that yields an event run the effect
function and append the event to the log (`record_event`). -/
def try_execute_event (st : SimState) (et : LifeEventTypeM) : SimState :=
  match instantiate et st.world st.rng [] with
  | (some e, rng2) =>
    { world := execApply et st.world e, rng := rng2, log := st.log ++ [e] }
  | (none, rng2) => { st with rng := rng2 }

/-- The loop body of `LifeEventSimulator.process` (`life_event.py`
lines 381-384) for one registered event type: draw from the shared RNG
and call `try_execute_event` iff the draw is below the type's
probability. -/
def processEventType (st : SimState) (et : LifeEventTypeM) : SimState :=
  let (x, rng2) := rngRandom st.rng
  if x < et.probability then
    try_execute_event { st with rng := rng2 } et
  else
    { st with rng := rng2 }

/-- Embeds `LifeEventSimulator.process` after the `next_trigger` date gate:
`for event_type in LifeEvents.events(): ...` over the registered event
types in registration order. -/
def processAll (st : SimState) (events : List LifeEventTypeM) : SimState :=
  events.foldl processEventType st

/-! ## `neighborly/core/relationship.py`

Relationship gameobjects are identified by their integer uid.  The
`Relationships` component's `incoming` / `outgoing` dicts are embedded
as functions `Nat → Option Nat` (target/owner uid ↦ relationship uid),
matching Python dict lookup/insert/delete semantics (`GameObject`
hashes to its id).  The world-side state carries, per gameobject uid,
its optional `Relationships` component, plus observation logs for the
side effects of `add_relationship`: the relationship gameobjects
spawned by `BaseRelationship.instantiate`, the dispatched
`RelationshipCreatedEvent`s, and the social-rule applications.  Social
rules are embedded with their documented interface: a precondition on
`(owner, target, relationship)` and an `apply` effect; per the module's
purpose (`ISocialRule`: status effects and stat modifiers on the
relationship), `apply` is modelled as the recorded application itself
and does not rewrite the incoming/outgoing indices. -/

/-- The `Relationships` component (`relationship.py`, class
`Relationships`): `incoming` maps relationship-owner uid to the
relationship gameobject uid; `outgoing` maps relationship-target uid to
the relationship gameobject uid. -/
structure RelationshipsM where
  incoming : Nat → Option Nat
  outgoing : Nat → Option Nat

/-- A registered social rule (`relationship.py`, `ISocialRule`): a name
identifying the rule instance and its `check_preconditions(owner,
target, relationship)` test. -/
structure SocialRuleM where
  name : String
  precondition : Nat → Nat → Nat → Bool

/-- World state for the relationship graph. -/
structure RelState where
  /-- Per gameobject uid, its `Relationships` component if attached. -/
  relationships : Nat → Option RelationshipsM
  /-- Uid handed to the next spawned gameobject. -/
  nextUid : Nat
  /-- Uids of relationship gameobjects spawned so far, in order. -/
  spawned : List Nat
  /-- Dispatched `RelationshipCreatedEvent`s: (relationship, owner, target). -/
  events : List (Nat × Nat × Nat)
  /-- The `SocialRuleLibrary` resource: registered rules in order. -/
  socialRules : List SocialRuleM
  /-- `rule.apply(owner, target, relationship)` calls, in order:
  (rule name, owner, target, relationship). -/
  ruleApplications : List (String × Nat × Nat × Nat)

/-- Replace gameobject `u`'s `Relationships` component. -/
def setRels (st : RelState) (u : Nat) (r : RelationshipsM) : RelState :=
  { st with relationships := fun x => if x = u then some r else st.relationships x }

/-- Write (or delete, with `v = none`) the `outgoing` dict entry for
key `t`. -/
def putOutgoing (ro : RelationshipsM) (t : Nat) (v : Option Nat) : RelationshipsM :=
  { ro with outgoing := fun x => if x = t then v else ro.outgoing x }

/-- Write (or delete, with `v = none`) the `incoming` dict entry for
key `o`. -/
def putIncoming (ro : RelationshipsM) (o : Nat) (v : Option Nat) : RelationshipsM :=
  { ro with incoming := fun x => if x = o then v else ro.incoming x }

/-- Embeds `Relationship.on_add` (`relationship.py` lines 83-85):
`owner.get_component(Relationships).outgoing[target] = gameobject` then
`target.get_component(Relationships).incoming[owner] = gameobject`, the
two dict writes performed in that order; `none` when either endpoint
lacks a `Relationships` component (`get_component` raises). -/
def relOnAdd (st : RelState) (owner target rel : Nat) : Option RelState :=
  match st.relationships owner with
  | none => none
  | some ro =>
    match (setRels st owner (putOutgoing ro target (some rel))).relationships target with
    | none => none
    | some rt =>
      some (setRels (setRels st owner (putOutgoing ro target (some rel))) target
        (putIncoming rt owner (some rel)))

/-- Embeds `Relationship.on_remove` (`relationship.py` lines 87-89):
`del owner...outgoing[target]` then `del target...incoming[owner]`, in
that order; `none` when a component or a key is missing (the `del`
raises a `KeyError`, which in Python propagates after any writes
already made). -/
def relOnRemove (st : RelState) (owner target : Nat) : Option RelState :=
  match st.relationships owner with
  | none => none
  | some ro =>
    match ro.outgoing target with
    | none => none
    | some _ =>
      match (setRels st owner (putOutgoing ro target none)).relationships target with
      | none => none
      | some rt =>
        match rt.incoming owner with
        | none => none
        | some _ =>
          some (setRels (setRels st owner (putOutgoing ro target none)) target
            (putIncoming rt owner none))

/-- Apply every registered social rule whose precondition passes, in
registration order (`add_relationship`, `relationship.py` lines
379-384). -/
def applyRules (st : RelState) (owner target rel : Nat) : RelState :=
  { st with
    ruleApplications := st.ruleApplications ++
      ((st.socialRules.filter (fun ru => ru.precondition owner target rel)).map
        (fun ru => (ru.name, owner, target, rel))) }

/-- Embeds `add_relationship(owner, target)` (`relationship.py` lines
352-386): return the existing outgoing relationship if present;
otherwise spawn a relationship gameobject via
`BaseRelationship.instantiate` (attaching its `Relationship` component
fires `Relationship.on_add`, which indexes it from both endpoints),
dispatch a `RelationshipCreatedEvent`, then test and apply the
registered social rules.  `none` models the propagated exception when a
required `Relationships` component is absent. -/
def add_relationship (st : RelState) (owner target : Nat) : Option (RelState × Nat) :=
  match st.relationships owner with
  | none => none
  | some rels =>
    match rels.outgoing target with
    | some r => some (st, r)
    | none =>
      match relOnAdd { st with nextUid := st.nextUid + 1, spawned := st.spawned ++ [st.nextUid] }
          owner target st.nextUid with
      | none => none
      | some st2 =>
        some (applyRules { st2 with events := st2.events ++ [(st.nextUid, owner, target)] }
          owner target st.nextUid, st.nextUid)

/-- Embeds `get_relationship(subject, target)` (`relationship.py` lines
389-412): create on first access, otherwise return the existing
relationship gameobject. -/
def get_relationship (st : RelState) (subject target : Nat) : Option (RelState × Nat) :=
  match st.relationships subject with
  | none => none
  | some rels =>
    match rels.outgoing target with
    | none => add_relationship st subject target
    | some r => some (st, r)

/-- Reads `a.get_component(Relationships).outgoing[b]` as an optional value
(`none` also when `a` has no `Relationships` component). -/
def outMap (st : RelState) (a b : Nat) : Option Nat :=
  (st.relationships a).bind (fun r => r.outgoing b)

/-- Reads `a.get_component(Relationships).incoming[b]` as an optional value
(`none` also when `a` has no `Relationships` component). -/
def inMap (st : RelState) (a b : Nat) : Option Nat :=
  (st.relationships a).bind (fun r => r.incoming b)

/-- The referential-symmetry invariant of the relationship graph: for
every pair of gameobjects holding a `Relationships` component, the
owner's outgoing entry for the target and the target's incoming entry
for the owner agree as optional values — the target is a key of the
owner's outgoing map iff the owner is a key of the target's incoming
map, and then both hold the identical relationship gameobject. -/
def RelSym (st : RelState) : Prop :=
  ∀ a b, (st.relationships a).isSome → (st.relationships b).isSome →
    outMap st a b = inMap st b a

/-! ## `neighborly/core/ecs.py` -/

/-- A component instance as stored on a gameobject: its type name and
the class-level `remove_on_archive` flag of that type (`ecs.py` line
225; the default is `False`, i.e. components survive archiving unless
tagged otherwise). -/
structure ComponentE where
  ctype : String
  removeOnArchive : Bool
deriving DecidableEq, Repr

/-- A gameobject's type-keyed component store
(`GameObject._components`, a dict keyed by component type, so the type
names are pairwise distinct; values in insertion order). -/
structure GameObjectE where
  comps : List ComponentE
deriving DecidableEq, Repr

/-- The `World` state (`ecs.py`, class `World`): the id-keyed gameobject
map (`_gameobjects`), the deferred-destruction queue
(`_dead_gameobjects`, a plain list, appended to by
`delete_gameobject`), and the type-keyed resource dict (`_resources`,
type names mapped to an opaque instance token). -/
structure WorldE where
  gameobjects : Nat → Option GameObjectE
  dead : List Nat
  resources : String → Option Nat

/-- Embeds `World.has_gameobject` (`ecs.py` lines 350-352):
`gid in self._gameobjects`. -/
def has_gameobject (w : WorldE) (gid : Nat) : Bool :=
  (w.gameobjects gid).isSome

/-- Embeds `World.delete_gameobject` (`ecs.py` lines 358-360): only appends
the id to `_dead_gameobjects`; the gameobject map is untouched. -/
def delete_gameobject (w : WorldE) (gid : Nat) : WorldE :=
  { w with dead := w.dead ++ [gid] }

/-- The loop of `World._clear_dead_gameobjects` (`ecs.py` lines
372-387) over the queued ids: look each up in `_gameobjects` (a
`KeyError` — modelled as `none` — if the id is not present, e.g.
because an earlier iteration already deleted it), run the component
`on_remove` hooks (base-class no-ops here), and delete the map entry. -/
def clearDeadAux (gos : Nat → Option GameObjectE) : List Nat → Option (Nat → Option GameObjectE)
  | [] => some gos
  | gid :: rest =>
    match gos gid with
    | none => none
    | some _ => clearDeadAux (fun x => if x = gid then none else gos x) rest

/-- Embeds `World._clear_dead_gameobjects` followed by the
`self._dead_gameobjects.clear()` at its end. -/
def clearDead (w : WorldE) : Option WorldE :=
  (clearDeadAux w.gameobjects w.dead).map (fun gos => { w with gameobjects := gos, dead := [] })

/-- Run the registered processors in order (`self._ecs.process(**kwargs)`). -/
def runSystems (w : WorldE) (sys : List (WorldE → WorldE)) : WorldE :=
  sys.foldl (fun w2 s => s w2) w

/-- Embeds `World.step` (`ecs.py` lines 402-405): purge the dead gameobjects,
then run every system; `none` when the purge raises. -/
def step (w : WorldE) (sys : List (WorldE → WorldE)) : Option WorldE :=
  (clearDead w).map (fun w2 => runSystems w2 sys)

/-- Embeds `GameObject.remove_component` on the component store (`ecs.py`
lines 149-158): deletes the dict entry for the type (every stored
component of that type name, the dict holding at most one). -/
def removeComponentGO (g : GameObjectE) (ct : String) : GameObjectE :=
  { g with comps := g.comps.filter (fun c => c.ctype != ct) }

/-- Embeds `GameObject.archive` (`ecs.py` lines 172-184): run each component's
`on_archive` hook (the base-class no-op here), then walk a reversed
snapshot of the component list and remove every component whose type
has `remove_on_archive` set.  The gameobject stays in the world. -/
def archiveGO (g : GameObjectE) : GameObjectE :=
  g.comps.reverse.foldl
    (fun g2 c => if c.removeOnArchive then removeComponentGO g2 c.ctype else g2) g

/-- The `archive` operation lifted to the world: the gameobject map keeps the same
keys; only the archived gameobject's component store changes. -/
def archiveWorld (w : WorldE) (gid : Nat) : WorldE :=
  { w with gameobjects := fun x =>
      if x = gid then (w.gameobjects gid).map archiveGO else w.gameobjects x }

/-- Embeds `World.add_resource` (`ecs.py` lines 407-412): store the instance
under its concrete type, replacing (with only a logged warning) any
existing one. -/
def add_resource (w : WorldE) (rtype : String) (inst : Nat) : WorldE :=
  { w with resources := fun x => if x = rtype then some inst else w.resources x }

/-- Embeds `World.remove_resource` (`ecs.py` lines 414-419): delete the entry
for the type; a missing type raises `ResourceNotFoundError` (modelled
as `none`, the registry left as it was). -/
def remove_resource (w : WorldE) (rtype : String) : Option WorldE :=
  match w.resources rtype with
  | none => none
  | some _ => some { w with resources := fun x => if x = rtype then none else w.resources x }

/-- Embeds `World.has_resource` (`ecs.py` lines 428-430):
`resource_type in self._resources`. -/
def has_resource (w : WorldE) (rtype : String) : Bool :=
  (w.resources rtype).isSome

/-! ## Parent/child destruction (spec-modelled)

The parent/child relation between gameobjects and its handling at the
deferred-removal boundary belong to the repository's newer
`GameObjectManager` ECS, which is not under `src/` (only its tests,
`tests/test_ecs.py`, exercise `add_child` / `destroy_gameobject`).  It
is modelled here from the spec. -/

/-- A gameobject hierarchy: a gameobject uid and the subtrees of its
children. -/
inductive GTree where
  | node (uid : Nat) (children : List GTree)

mutual

/-- Modelled from the spec: the order in which the deferred-removal
pass destroys a gameobject's subtree — "destroying a gameobject whose
children (via an optional parent/child relation) exist transitively
destroys them before the parent at the deferred-removal boundary" —
children first, the root gameobject last. -/
def destroySeq : GTree → List Nat
  | .node uid cs => destroySeqForest cs ++ [uid]

/-- Modelled from the spec: destruction order of a forest of child
subtrees, left to right. -/
def destroySeqForest : List GTree → List Nat
  | [] => []
  | t :: ts => destroySeq t ++ destroySeqForest ts

end

/-- Modelled from the spec: world state of the hierarchy-aware ECS —
the forest of parent/child trees, the aliveness map (`has_gameobject`)
and the deferred-destruction queue. -/
structure HWorld where
  roots : List GTree
  alive : Nat → Bool
  dead : List Nat

mutual

/-- Locate the subtree rooted at a uid within a tree. -/
def findSubtree (gid : Nat) : GTree → Option GTree
  | .node uid cs => if uid = gid then some (.node uid cs) else findSubtreeForest gid cs

/-- Locate the subtree rooted at a uid within a forest. -/
def findSubtreeForest (gid : Nat) : List GTree → Option GTree
  | [] => none
  | t :: ts =>
    match findSubtree gid t with
    | some t2 => some t2
    | none => findSubtreeForest gid ts

end

/-- Mark every uid of a destruction sequence as no longer alive, in
sequence order. -/
def destroyAll (alive : Nat → Bool) (seq : List Nat) : Nat → Bool :=
  seq.foldl (fun al u => fun x => if x = u then false else al x) alive

/-- Modelled from the spec: the deferred-removal pass of `step()` —
"step() first purges gameobjects queued for destruction", each queued
gameobject's transitive children being destroyed before it. -/
def hClearDead (w : HWorld) : HWorld :=
  { w with
    alive := w.dead.foldl
      (fun al gid =>
        match findSubtreeForest gid w.roots with
        | some t => destroyAll al (destroySeq t)
        | none => fun x => if x = gid then false else al x)
      w.alive,
    dead := [] }

/-- Modelled from the spec: `has_gameobject` of the hierarchy-aware ECS. -/
def hHasGameobject (w : HWorld) (gid : Nat) : Bool :=
  w.alive gid

/-! ## Concrete instances for witnesses and counterexamples -/

/-- The empty `Relationships` component. -/
def emptyRels : RelationshipsM := { incoming := fun _ => none, outgoing := fun _ => none }

/-- Concrete relationship-graph state for the C3/C4 witnesses: every
gameobject holds an empty `Relationships` component; one always-true
social rule is registered. -/
def stSym : RelState :=
  { relationships := fun _ => some emptyRels, nextUid := 10, spawned := [], events := [],
    socialRules := [{ name := "always", precondition := fun _ _ _ => true }],
    ruleApplications := [] }

/-- The state and relationship uid produced by the C4 witness's first
`get_relationship` call on `stSym`. -/
def stSymPair : RelState × Nat := (get_relationship stSym 1 2).getD (stSym, 0)

/-- Concrete role for the C10 witness: one required component, no
binder, always-true filter. -/
def rtZero : EventRoleTypeM :=
  { name := "role", components := ["A"], filter_fn := fun _ _ _ => true, binder_fn := none }

/-- Concrete world for the C10 witness: a single gameobject with id 0
that satisfies the role's requirements. -/
def wZero : WorldM := { gameobjects := [⟨0, ["A"]⟩], timestamp := "T" }

/-- Concrete RNG with all-zero streams. -/
def rngZero : RNG := { floats := fun _ => 0, fpos := 0, ints := fun _ => 0, ipos := 0 }

/-- Concrete empty life event. -/
def eEmpty : LifeEvent := ⟨"ev", "T", []⟩

/-- C2 as stated: every role of a successfully instantiated event is
bound to a gameobject of the world satisfying the role's required
component set. -/
def allRolesSatisfyClaim : Prop :=
  ∀ (et : LifeEventTypeM) (w : WorldM) (rng : RNG) (kwargs : List (String × GameObjectM))
    (e : LifeEvent) (rng2 : RNG),
    instantiate et w rng kwargs = (some e, rng2) →
    ∀ i (hi : i < et.roles.length) (hi2 : i < e.roles.length),
      ∃ g ∈ w.gameobjects, g.id = (e.roles.get ⟨i, hi2⟩).gid ∧
        hasComponentAll g ((et.roles.get ⟨i, hi⟩).components) = true

/-- Concrete event type for the C2 counterexample: its single role
declares required component `A` but also a custom binder that returns
gameobject 5, which lacks `A`; `fill_role` trusts the binder and never
rechecks the declared requirements. -/
def etBinder : LifeEventTypeM :=
  { name := "ev",
    roles := [{ name := "r", components := ["A"], filter_fn := fun _ _ _ => true,
                binder_fn := some (fun _ _ => some ⟨5, []⟩) }],
    probability := 1,
    execute_fn := none }

/-- Concrete world for the C2 counterexample: only gameobject 5, with
no components. -/
def wBinder : WorldM := { gameobjects := [⟨5, []⟩], timestamp := "T" }

/-- What the engine actually guarantees for one bound role: the role
name matches; a caller-supplied candidate was validated against the
role's components and filter; a role filled from the world's candidates
(no binder) satisfies components and filter as evaluated against the
event bound so far; a role filled by a custom binder is bound
unchecked. -/
def roleOkAt (w : WorldM) (kwargs : List (String × GameObjectM)) (rt : EventRoleTypeM)
    (ev : LifeEvent) (r : EventRole) : Prop :=
  r.name = rt.name ∧
  (match lookupKw kwargs rt.name with
   | some cand =>
     r.gid = cand.id ∧ hasComponentAll cand rt.components = true ∧
       rt.filter_fn w ev cand = true
   | none =>
     rt.binder_fn = none →
       ∃ g ∈ w.gameobjects, g.id = r.gid ∧ hasComponentAll g rt.components = true ∧
         rt.filter_fn w ev g = true)

/-- Concrete event type for the C2 witness: two roles requiring
component `P`, filled from the world's candidates. -/
def etTwo : LifeEventTypeM :=
  { name := "date",
    roles := [{ name := "a", components := ["P"], filter_fn := fun _ _ _ => true,
                binder_fn := none },
              { name := "b", components := ["P"], filter_fn := fun _ _ _ => true,
                binder_fn := none }],
    probability := 1,
    execute_fn := none }

/-- Concrete world for the C2 witness: gameobjects 1 and 2, both
holding component `P`. -/
def wTwo : WorldM := { gameobjects := [⟨1, ["P"]⟩, ⟨2, ["P"]⟩], timestamp := "T3" }

/-- The event instantiated in the C2 witness. -/
def evDate : LifeEvent := ⟨"date", "T3", [⟨"a", 1⟩, ⟨"b", 1⟩]⟩

/-- The RNG state after the C2 witness's instantiation. -/
def rngDateAfter : RNG := ⟨fun _ => 0, 0, fun _ => 0, 2⟩

/-- C1 as stated: the probability draw from the shared RNG is taken
only after the event type has successfully bound all of its roles — so
in particular an event type whose role binding fails consumes no
probability draw for that attempt. -/
def drawAfterBindClaim : Prop :=
  ∀ (st : SimState) (et : LifeEventTypeM),
    (instantiate et st.world st.rng []).1 = none →
    (processEventType st et).rng.fpos = st.rng.fpos

/-- Concrete state for the C1 counterexample: no gameobjects at all. -/
def stNoCand : SimState :=
  { world := ⟨[], "T"⟩, rng := ⟨fun _ => 0, 0, fun _ => 0, 0⟩, log := [] }

/-- Concrete event type for the C1 counterexample: one role that can
never be bound (no candidate holds component `A`). -/
def etNoCand : LifeEventTypeM :=
  { name := "ev",
    roles := [{ name := "r", components := ["A"], filter_fn := fun _ _ _ => true,
                binder_fn := none }],
    probability := 1,
    execute_fn := none }

/-- Concrete state for the C1 witness: one gameobject (id 7, component
`A`), all-zero RNG streams, empty log. -/
def stOneCand : SimState :=
  { world := ⟨[⟨7, ["A"]⟩], "T2"⟩, rng := ⟨fun _ => 0, 0, fun _ => 0, 0⟩, log := [] }

/-- Concrete event type for the C1 witness. -/
def etOneCand : LifeEventTypeM :=
  { name := "birth",
    roles := [{ name := "r", components := ["A"], filter_fn := fun _ _ _ => true,
                binder_fn := none }],
    probability := 1,
    execute_fn := none }

/-- The RNG after the C1 witness's probability draw. -/
def rngAfterDraw : RNG := ⟨fun _ => 0, 1, fun _ => 0, 0⟩

/-- The RNG after the C1 witness's role binding. -/
def rngAfterBind : RNG := ⟨fun _ => 0, 1, fun _ => 0, 1⟩

/-- The event instantiated in the C1 witness. -/
def evBirth : LifeEvent := ⟨"birth", "T2", [⟨"r", 7⟩]⟩

/-- The root gameobject uid of a hierarchy subtree. -/
def rootUid : GTree → Nat
  | .node uid _ => uid

/-- The child subtrees of a hierarchy node. -/
def childTrees : GTree → List GTree
  | .node _ cs => cs

/-- Concrete subtree for the C7 witness: gameobject 3 with children 4
and 5. -/
def treeFam : GTree := .node 3 [.node 4 [], .node 5 []]

/-- Concrete hierarchy-aware world for the C7 witness: gameobject 1
with child 2 and child 3 (which has children 4 and 5); gameobject 3 is
queued for destruction. -/
def wFam : HWorld :=
  { roots := [.node 1 [.node 2 [], treeFam]], alive := fun _ => true, dead := [3] }

/-- Concrete world for the C5 witness: gameobjects 1 and 2, with 1
queued for destruction. -/
def wStep : WorldE :=
  { gameobjects := fun x => if x = 1 then some ⟨[]⟩ else if x = 2 then some ⟨[]⟩ else none,
    dead := [1],
    resources := fun _ => none }

/-- The world `wStep` after its deferred-removal pass. -/
def wStepPurged : WorldE := (clearDead wStep).getD wStep

/-- Concrete world for C6: a single gameobject with id 1. -/
def wDouble : WorldE :=
  { gameobjects := fun x => if x = 1 then some ⟨[]⟩ else none,
    dead := [],
    resources := fun _ => none }

/-- Concrete gameobject for the C8 witness: an ordinary (stripped)
component and a persistent one. -/
def gArch : GameObjectE := ⟨[⟨"Active", true⟩, ⟨"GameCharacter", false⟩]⟩

/-- Concrete world holding `gArch` under id 1. -/
def wArch : WorldE :=
  { gameobjects := fun x => if x = 1 then some gArch else none,
    dead := [],
    resources := fun _ => none }

/-- Concrete empty registry for the C9 witness. -/
def wRes : WorldE := { gameobjects := fun _ => none, dead := [], resources := fun _ => none }

/-! ## Theorems -/

/-- Characterization of a successful `Relationship.on_add`: the set of
gameobjects holding a `Relationships` component is unchanged; the only
outgoing entry written is `owner ↦ target ↦ rel`; the only incoming
entry written is `target ↦ owner ↦ rel`; every other field of the
state is untouched. -/
theorem relOnAdd_char (st : RelState) (o t rel : Nat) (st2 : RelState)
    (h : relOnAdd st o t rel = some st2) :
    (∀ x, (st2.relationships x).isSome = (st.relationships x).isSome)
    ∧ (∀ a b, outMap st2 a b = if a = o ∧ b = t then some rel else outMap st a b)
    ∧ (∀ a b, inMap st2 a b = if a = t ∧ b = o then some rel else inMap st a b)
    ∧ st2.nextUid = st.nextUid ∧ st2.spawned = st.spawned ∧ st2.events = st.events
    ∧ st2.socialRules = st.socialRules ∧ st2.ruleApplications = st.ruleApplications := by
  unfold relOnAdd at h
  split at h
  next => cases h
  next ro hro =>
    split at h
    next => cases h
    next rt hrt =>
      injection h with h
      subst h
      have hrtval : (if t = o then some (putOutgoing ro t (some rel))
          else st.relationships t) = some rt := by
        rw [← hrt]; rfl
      refine ⟨?_, ?_, ?_, rfl, rfl, rfl, rfl, rfl⟩
      · intro x
        simp only [setRels]
        by_cases hxt : x = t
        · subst hxt
          by_cases hto : x = o
          · subst hto
            simp [hro]
          · rw [if_neg hto] at hrtval
            simp [hrtval]
        · by_cases hxo : x = o
          · subst hxo
            simp [hxt, hro]
          · simp [hxt, hxo]
      · intro a b
        simp only [outMap, setRels]
        by_cases hat : a = t
        · subst hat
          by_cases hto : a = o
          · subst hto
            rw [if_pos rfl] at hrtval
            injection hrtval with hrtval
            subst hrtval
            by_cases hbt : b = a
            · simp [putIncoming, putOutgoing, hbt]
            · simp [putIncoming, putOutgoing, hbt, hro]
          · rw [if_neg hto] at hrtval
            simp [putIncoming, hto, hrtval]
        · by_cases hao : a = o
          · subst hao
            by_cases hbt : b = t
            · simp [hat, putOutgoing, hbt]
            · simp [hat, putOutgoing, hbt, hro]
          · simp [hat, hao]
      · intro a b
        simp only [inMap, setRels]
        by_cases hat : a = t
        · subst hat
          by_cases hbo : b = o
          · subst hbo
            simp [putIncoming]
          · by_cases hto : a = o
            · subst hto
              rw [if_pos rfl] at hrtval
              injection hrtval with hrtval
              subst hrtval
              simp [putIncoming, putOutgoing, hbo, hro]
            · rw [if_neg hto] at hrtval
              simp [putIncoming, hbo, hrtval]
        · by_cases hao : a = o
          · subst hao
            simp [hat, putOutgoing, hro]
          · simp [hat, hao]

/-- Characterization of a successful `Relationship.on_remove`: the set
of gameobjects holding a `Relationships` component is unchanged; the
only outgoing entry deleted is `owner ↦ target`; the only incoming
entry deleted is `target ↦ owner`; every other field of the state is
untouched. -/
theorem relOnRemove_char (st : RelState) (o t : Nat) (st2 : RelState)
    (h : relOnRemove st o t = some st2) :
    (∀ x, (st2.relationships x).isSome = (st.relationships x).isSome)
    ∧ (∀ a b, outMap st2 a b = if a = o ∧ b = t then none else outMap st a b)
    ∧ (∀ a b, inMap st2 a b = if a = t ∧ b = o then none else inMap st a b)
    ∧ st2.nextUid = st.nextUid ∧ st2.spawned = st.spawned ∧ st2.events = st.events
    ∧ st2.socialRules = st.socialRules ∧ st2.ruleApplications = st.ruleApplications := by
  unfold relOnRemove at h
  split at h
  next => cases h
  next ro hro =>
    split at h
    next => cases h
    next r0 hout0 =>
      split at h
      next => cases h
      next rt hrt =>
        split at h
        next => cases h
        next r1 hinc =>
          injection h with h
          subst h
          have hrtval : (if t = o then some (putOutgoing ro t none)
              else st.relationships t) = some rt := by
            rw [← hrt]; rfl
          refine ⟨?_, ?_, ?_, rfl, rfl, rfl, rfl, rfl⟩
          · intro x
            simp only [setRels]
            by_cases hxt : x = t
            · subst hxt
              by_cases hto : x = o
              · subst hto
                simp [hro]
              · rw [if_neg hto] at hrtval
                simp [hrtval]
            · by_cases hxo : x = o
              · subst hxo
                simp [hxt, hro]
              · simp [hxt, hxo]
          · intro a b
            simp only [outMap, setRels]
            by_cases hat : a = t
            · subst hat
              by_cases hto : a = o
              · subst hto
                rw [if_pos rfl] at hrtval
                injection hrtval with hrtval
                subst hrtval
                by_cases hbt : b = a
                · simp [putIncoming, putOutgoing, hbt]
                · simp [putIncoming, putOutgoing, hbt, hro]
              · rw [if_neg hto] at hrtval
                simp [putIncoming, hto, hrtval]
            · by_cases hao : a = o
              · subst hao
                by_cases hbt : b = t
                · simp [hat, putOutgoing, hbt]
                · simp [hat, putOutgoing, hbt, hro]
              · simp [hat, hao]
          · intro a b
            simp only [inMap, setRels]
            by_cases hat : a = t
            · subst hat
              by_cases hbo : b = o
              · subst hbo
                simp [putIncoming]
              · by_cases hto : a = o
                · subst hto
                  rw [if_pos rfl] at hrtval
                  injection hrtval with hrtval
                  subst hrtval
                  simp [putIncoming, putOutgoing, hbo, hro]
                · rw [if_neg hto] at hrtval
                  simp [putIncoming, hbo, hrtval]
            · by_cases hao : a = o
              · subst hao
                simp [hat, putOutgoing, hro]
              · simp [hat, hao]

/-- C3: the referential-symmetry invariant — for every owner/target
pair of gameobjects holding a `Relationships` component, the target is
a key of the owner's outgoing map iff the owner is a key of the
target's incoming map, both entries then referencing the identical
relationship gameobject — is preserved both by adding a `Relationship`
component (`Relationship.on_add`) and by removing one
(`Relationship.on_remove`). -/
theorem relationship_symmetry_preserved (st : RelState) (o t rel : Nat) (hsym : RelSym st) :
    (∀ st2, relOnAdd st o t rel = some st2 → RelSym st2)
    ∧ (∀ st2, relOnRemove st o t = some st2 → RelSym st2) := by
  constructor
  · intro st2 h
    obtain ⟨hdom, hout, hin, _⟩ := relOnAdd_char st o t rel st2 h
    intro a b hsa hsb
    rw [hout a b, hin b a]
    by_cases hc : a = o ∧ b = t
    · rw [if_pos hc, if_pos ⟨hc.2, hc.1⟩]
    · rw [if_neg hc, if_neg (fun hc2 => hc ⟨hc2.2, hc2.1⟩)]
      refine hsym a b ?_ ?_
      · rw [← hdom a]; exact hsa
      · rw [← hdom b]; exact hsb
  · intro st2 h
    obtain ⟨hdom, hout, hin, _⟩ := relOnRemove_char st o t st2 h
    intro a b hsa hsb
    rw [hout a b, hin b a]
    by_cases hc : a = o ∧ b = t
    · rw [if_pos hc, if_pos ⟨hc.2, hc.1⟩]
    · rw [if_neg hc, if_neg (fun hc2 => hc ⟨hc2.2, hc2.1⟩)]
      refine hsym a b ?_ ?_
      · rw [← hdom a]; exact hsa
      · rw [← hdom b]; exact hsb

/-- Witness for `relationship_symmetry_preserved` at the concrete
symmetric state `stSym` (whose invariant holds trivially: all maps are
empty). -/
theorem relationship_symmetry_preserved_witness :
    ((∀ st2, relOnAdd stSym 1 2 5 = some st2 → RelSym st2)
     ∧ (∀ st2, relOnRemove stSym 1 2 = some st2 → RelSym st2))
    ∧ RelSym stSym :=
  ⟨relationship_symmetry_preserved stSym 1 2 5 (fun _ _ _ _ => rfl), fun _ _ _ _ => rfl⟩

/-- Calling `get_relationship` on an ordered pair whose outgoing entry exists
returns the existing relationship gameobject and performs no state
change. -/
theorem get_relationship_hit (st : RelState) (o t r : Nat) (ro : RelationshipsM)
    (h1 : st.relationships o = some ro) (h2 : ro.outgoing t = some r) :
    get_relationship st o t = some (st, r) := by
  unfold get_relationship
  rw [h1]
  simp [h2]

/-- C4: for every ordered pair, `get_relationship` is idempotent — a
second call returns the same relationship gameobject and leaves the
state untouched (no second spawn, no second `RelationshipCreatedEvent`,
no second social-rule pass), so at most one relationship gameobject is
ever created per ordered pair; a call that finds the pair's entry
already present performs no side effect at all; and only the call that
creates the relationship spawns it, dispatches the relationship-created
event and then applies exactly the registered social rules whose
preconditions pass, in registration order. -/
theorem get_relationship_spec (st : RelState) (o t : Nat) (st1 : RelState) (r1 : Nat)
    (h : get_relationship st o t = some (st1, r1)) :
    get_relationship st1 o t = some (st1, r1)
    ∧ (∀ ro, st.relationships o = some ro → ∀ r, ro.outgoing t = some r →
        st1 = st ∧ r1 = r)
    ∧ (outMap st o t = none →
        r1 = st.nextUid
        ∧ st1.nextUid = st.nextUid + 1
        ∧ st1.spawned = st.spawned ++ [r1]
        ∧ st1.events = st.events ++ [(r1, o, t)]
        ∧ st1.ruleApplications = st.ruleApplications ++
            ((st.socialRules.filter (fun ru => ru.precondition o t r1)).map
              (fun ru => (ru.name, o, t, r1)))) := by
  unfold get_relationship at h
  split at h
  next => cases h
  next rels hrels =>
    split at h
    next hnone =>
      unfold add_relationship at h
      split at h
      next hrels2 => cases h
      next rels2 hrels2 =>
        rw [hrels] at hrels2
        injection hrels2 with hre
        subst hre
        split at h
        next r hr => rw [hnone] at hr; cases hr
        next hr2 =>
          split at h
          next => cases h
          next st2 hAdd =>
            injection h with h
            injection h with hst1 hr1
            obtain ⟨hdom, hout, hin, hnu, hsp, hev, hsr, hra⟩ :=
              relOnAdd_char _ o t st.nextUid st2 hAdd
            have houtval : outMap st2 o t = some st.nextUid := by
              rw [hout o t, if_pos ⟨rfl, rfl⟩]
            have hro2 : ∃ ro2, st2.relationships o = some ro2 ∧
                ro2.outgoing t = some st.nextUid := by
              unfold outMap at houtval
              cases hx : st2.relationships o with
              | none => rw [hx] at houtval; cases houtval
              | some ro2 =>
                rw [hx] at houtval
                exact ⟨ro2, rfl, houtval⟩
            obtain ⟨ro2, hro2a, hro2b⟩ := hro2
            refine ⟨?_, ?_, ?_⟩
            · rw [← hst1, ← hr1]
              exact get_relationship_hit _ o t st.nextUid ro2 hro2a hro2b
            · intro ro h1 r hr
              rw [hrels] at h1
              injection h1 with h1
              subst h1
              rw [hnone] at hr
              cases hr
            · intro _
              rw [← hst1, ← hr1]
              refine ⟨rfl, ?_, ?_, ?_, ?_⟩
              · show st2.nextUid = st.nextUid + 1
                rw [hnu]
              · show st2.spawned = st.spawned ++ [st.nextUid]
                rw [hsp]
              · show st2.events ++ [(st.nextUid, o, t)] = st.events ++ [(st.nextUid, o, t)]
                rw [hev]
              · show st2.ruleApplications ++ _ = st.ruleApplications ++ _
                rw [hra, hsr]
    next r hr =>
      injection h with h
      injection h with hst1 hr1
      subst hst1
      subst hr1
      refine ⟨?_, ?_, ?_⟩
      · exact get_relationship_hit st o t r rels hrels hr
      · intro ro h1 r2 hr2
        rw [hrels] at h1
        injection h1 with h1
        subst h1
        rw [hr] at hr2
        injection hr2 with hr2
        subst hr2
        exact ⟨rfl, rfl⟩
      · intro hmm
        unfold outMap at hmm
        rw [hrels] at hmm
        simp only [Option.some_bind] at hmm
        rw [hr] at hmm
        cases hmm

/-- Witness for `get_relationship_spec`: a concrete creating call on
`stSym`, followed by the guaranteed idempotent second call. -/
theorem get_relationship_spec_witness :
    get_relationship stSymPair.1 1 2 = some (stSymPair.1, stSymPair.2)
    ∧ (∀ ro, stSym.relationships 1 = some ro → ∀ r, ro.outgoing 2 = some r →
        stSymPair.1 = stSym ∧ stSymPair.2 = r)
    ∧ (outMap stSym 1 2 = none →
        stSymPair.2 = stSym.nextUid
        ∧ stSymPair.1.nextUid = stSym.nextUid + 1
        ∧ stSymPair.1.spawned = stSym.spawned ++ [stSymPair.2]
        ∧ stSymPair.1.events = stSym.events ++ [(stSymPair.2, 1, 2)]
        ∧ stSymPair.1.ruleApplications = stSym.ruleApplications ++
            ((stSym.socialRules.filter (fun ru => ru.precondition 1 2 stSymPair.2)).map
              (fun ru => (ru.name, 1, 2, stSymPair.2)))) :=
  get_relationship_spec stSym 1 2 stSymPair.1 stSymPair.2 rfl

/-- C10: in `EventRoleType.fill_role` for a role with no custom binder,
the guard is Python's `any(candidate_list)` — truthiness of the integer
ids — so the role binds iff some passing candidate has a nonzero id
(in particular it fails when every passing candidate has id 0, even
though a valid candidate exists), and when it binds the candidate is
drawn by `rng.choice` over the whole passing list, id 0 included. -/
theorem fill_role_truthiness (rt : EventRoleTypeM) (w : WorldM) (rng : RNG) (e : LifeEvent)
    (hb : rt.binder_fn = none) :
    ((fill_role rt w rng e).1.isSome = true ↔ ∃ gid ∈ passingCandidates rt w e, gid ≠ 0)
    ∧ (∀ r rng2, fill_role rt w rng e = (some r, rng2) →
        r.name = rt.name ∧ (r.gid, rng2) = rngChoice rng (passingCandidates rt w e)) := by
  cases hany : (passingCandidates rt w e).any (fun gid => gid != 0) with
  | false =>
    have hres : fill_role rt w rng e = (none, rng) := by
      unfold fill_role
      rw [hb]
      simp [hany]
    constructor
    · rw [hres]
      simp only [Option.isSome_none, Bool.false_eq_true, false_iff]
      rintro ⟨gid, hmem, hne⟩
      have := List.any_eq_false.mp hany gid hmem
      simp at this
      exact hne this
    · intro r rng2 h
      rw [hres] at h
      injection h with h1 h2
      cases h1
  | true =>
    have hres : fill_role rt w rng e =
        (some ⟨rt.name, (rngChoice rng (passingCandidates rt w e)).1⟩,
         (rngChoice rng (passingCandidates rt w e)).2) := by
      unfold fill_role
      rw [hb]
      simp [hany]
    constructor
    · rw [hres]
      simp only [Option.isSome_some, true_iff]
      obtain ⟨gid, hmem, hne⟩ := List.any_eq_true.mp hany
      exact ⟨gid, hmem, by simpa using hne⟩
    · intro r rng2 h
      rw [hres] at h
      injection h with h1 h2
      injection h1 with h1
      rw [← h1, ← h2]
      exact ⟨rfl, rfl⟩

/-- Witness for `fill_role_truthiness`: in `wZero` the only passing
candidate has id 0, and the role fails to bind. -/
theorem fill_role_truthiness_witness :
    (((fill_role rtZero wZero rngZero eEmpty).1.isSome = true ↔
        ∃ gid ∈ passingCandidates rtZero wZero eEmpty, gid ≠ 0)
     ∧ (∀ r rng2, fill_role rtZero wZero rngZero eEmpty = (some r, rng2) →
         r.name = rtZero.name ∧
           (r.gid, rng2) = rngChoice rngZero (passingCandidates rtZero wZero eEmpty)))
    ∧ (fill_role rtZero wZero rngZero eEmpty).1 = none
    ∧ passingCandidates rtZero wZero eEmpty = [0] :=
  ⟨fill_role_truthiness rtZero wZero rngZero eEmpty rfl, rfl, rfl⟩

/-- C2 counterexample: a role with a custom binder function is bound to
whatever the binder returns, with no component/filter validation, so an
instantiated event can carry a role whose gameobject violates the
role's declared component set. -/
theorem instantiate_binder_unchecked : ¬ allRolesSatisfyClaim := by
  intro h
  have h2 := h etBinder wBinder rngZero [] ⟨"ev", "T", [⟨"r", 5⟩]⟩ rngZero rfl 0
    (by decide) (by decide)
  obtain ⟨g, hg, _, hcomp⟩ := h2
  simp only [wBinder, List.mem_singleton] at hg
  subst hg
  exact absurd hcomp (by decide)

/-- Python `rng.choice` returns an element of a nonempty sequence. -/
theorem rngChoice_mem (rng : RNG) (l : List Nat) (hl : l ≠ []) : (rngChoice rng l).1 ∈ l := by
  unfold rngChoice
  have hlen : 0 < l.length := List.length_pos.mpr hl
  have hmod : rng.ints rng.ipos % l.length < l.length := Nat.mod_lt _ hlen
  simp only [List.getD_eq_getElem?_getD]
  rw [List.getElem?_eq_getElem hmod]
  simp only [Option.getD_some]
  exact List.getElem_mem hmod

/-- A successful `fill_role_with` means the caller-supplied candidate
passed the component and filter checks and was bound by its id. -/
theorem fill_role_with_some (rt : EventRoleTypeM) (w : WorldM) (e : LifeEvent)
    (cand : GameObjectM) (r : EventRole) (h : fill_role_with rt w e cand = some r) :
    r.name = rt.name ∧ r.gid = cand.id ∧ hasComponentAll cand rt.components = true ∧
      rt.filter_fn w e cand = true := by
  unfold fill_role_with at h
  split at h
  next hcond =>
    injection h with h
    rw [← h]
    rw [Bool.and_eq_true] at hcond
    exact ⟨rfl, rfl, hcond.1, hcond.2⟩
  next => cases h

/-- A successful `fill_role` yields a role named after the role type,
and — when the role has no custom binder — a bound gameobject drawn
from the world's passing candidates, hence one holding the required
components and passing the filter against the current event. -/
theorem fill_role_some (rt : EventRoleTypeM) (w : WorldM) (rng : RNG) (e : LifeEvent)
    (r : EventRole) (rng2 : RNG) (h : fill_role rt w rng e = (some r, rng2)) :
    r.name = rt.name ∧
    (rt.binder_fn = none →
      ∃ g ∈ w.gameobjects, g.id = r.gid ∧ hasComponentAll g rt.components = true ∧
        rt.filter_fn w e g = true) := by
  unfold fill_role at h
  split at h
  next binder hb =>
    split at h
    next obj hob =>
      injection h with h1 h2
      injection h1 with h1
      rw [← h1]
      refine ⟨rfl, fun hc => ?_⟩
      rw [hb] at hc
      cases hc
    next hob =>
      injection h with h1 h2
      cases h1
  next hb =>
    split at h
    next hany =>
      injection h with h1 h2
      injection h1 with h1
      have hne : passingCandidates rt w e ≠ [] := by
        obtain ⟨x, hx, _⟩ := List.any_eq_true.mp hany
        exact List.ne_nil_of_mem hx
      have hmem : (rngChoice rng (passingCandidates rt w e)).1 ∈ passingCandidates rt w e :=
        rngChoice_mem rng _ hne
      rw [← h1]
      refine ⟨rfl, fun _ => ?_⟩
      unfold passingCandidates at hmem
      obtain ⟨g, hgf, hgid⟩ := List.mem_map.mp hmem
      rw [List.mem_filter] at hgf
      obtain ⟨hgc, hgfil⟩ := hgf
      unfold getComponents at hgc
      rw [List.mem_filter] at hgc
      exact ⟨g, hgc.1, hgid, hgc.2, hgfil⟩
    next hany =>
      injection h with h1 h2
      cases h1

/-- The role-binding loop of `instantiate` is all-or-nothing and binds
in declaration order: a successful run extends the event with exactly
one role per role type, in order, each satisfying `roleOkAt` against
the event as bound so far. -/
theorem instantiateAux_sound (w : WorldM) (kwargs : List (String × GameObjectM)) :
    ∀ (roles : List EventRoleTypeM) (rng : RNG) (e0 eF : LifeEvent) (rngF : RNG),
      instantiateAux w kwargs roles rng e0 = (some eF, rngF) →
      ∃ newRoles,
        eF = ⟨e0.name, e0.timestamp, e0.roles ++ newRoles⟩
        ∧ newRoles.length = roles.length
        ∧ ∀ i (hi : i < roles.length) (hi2 : i < newRoles.length),
            roleOkAt w kwargs (roles.get ⟨i, hi⟩)
              ⟨e0.name, e0.timestamp, e0.roles ++ newRoles.take i⟩
              (newRoles.get ⟨i, hi2⟩) := by
  intro roles
  induction roles with
  | nil =>
    intro rng e0 eF rngF h
    unfold instantiateAux at h
    injection h with h1 h2
    injection h1 with h1
    refine ⟨[], ?_, rfl, ?_⟩
    · rw [← h1]
      cases e0
      simp
    · intro i hi
      exact absurd hi (Nat.not_lt_zero i)
  | cons rt rest ih =>
    intro rng e0 eF rngF h
    unfold instantiateAux at h
    split at h
    next bound hkw =>
      split at h
      next r hfw =>
        obtain ⟨newRoles, heF, hlen, hidx⟩ := ih rng _ eF rngF h
        refine ⟨r :: newRoles, ?_, by simp [hlen], ?_⟩
        · rw [heF]
          simp
        · intro i hi hi2
          cases i with
          | zero =>
            obtain ⟨hn, hg, hcomp, hfil⟩ := fill_role_with_some rt w e0 bound r hfw
            show roleOkAt w kwargs rt _ r
            unfold roleOkAt
            rw [hkw]
            have hev : (⟨e0.name, e0.timestamp,
                e0.roles ++ List.take 0 (r :: newRoles)⟩ : LifeEvent) = e0 := by
              cases e0
              simp
            rw [hev]
            exact ⟨hn, hg, hcomp, hfil⟩
          | succ j =>
            have hj : j < rest.length := Nat.lt_of_succ_lt_succ hi
            have hj2 : j < newRoles.length := Nat.lt_of_succ_lt_succ hi2
            have hprev := hidx j hj hj2
            have heq : (⟨e0.name, e0.timestamp,
                e0.roles ++ List.take (j+1) (r :: newRoles)⟩ : LifeEvent)
                = ⟨e0.name, e0.timestamp, (e0.roles ++ [r]) ++ newRoles.take j⟩ := by
              simp [List.take_succ_cons, List.append_assoc]
            show roleOkAt w kwargs (rest.get ⟨j, hj⟩) _ (newRoles.get ⟨j, hj2⟩)
            rw [heq]
            exact hprev
      next hfw =>
        injection h with h1 h2
        cases h1
    next hkw =>
      split at h
      next r rngB hfr =>
        obtain ⟨newRoles, heF, hlen, hidx⟩ := ih rngB _ eF rngF h
        refine ⟨r :: newRoles, ?_, by simp [hlen], ?_⟩
        · rw [heF]
          simp
        · intro i hi hi2
          cases i with
          | zero =>
            obtain ⟨hn, hbind⟩ := fill_role_some rt w rng e0 r rngB hfr
            show roleOkAt w kwargs rt _ r
            unfold roleOkAt
            rw [hkw]
            have hev : (⟨e0.name, e0.timestamp,
                e0.roles ++ List.take 0 (r :: newRoles)⟩ : LifeEvent) = e0 := by
              cases e0
              simp
            rw [hev]
            exact ⟨hn, hbind⟩
          | succ j =>
            have hj : j < rest.length := Nat.lt_of_succ_lt_succ hi
            have hj2 : j < newRoles.length := Nat.lt_of_succ_lt_succ hi2
            have hprev := hidx j hj hj2
            have heq : (⟨e0.name, e0.timestamp,
                e0.roles ++ List.take (j+1) (r :: newRoles)⟩ : LifeEvent)
                = ⟨e0.name, e0.timestamp, (e0.roles ++ [r]) ++ newRoles.take j⟩ := by
              simp [List.take_succ_cons, List.append_assoc]
            show roleOkAt w kwargs (rest.get ⟨j, hj⟩) _ (newRoles.get ⟨j, hj2⟩)
            rw [heq]
            exact hprev
      next rngB hfr =>
        injection h with h1 h2
        cases h1

/-- A caller-supplied candidate that fails its role's component check
makes the whole binding loop return `none`, wherever that role sits in
the declaration order. -/
theorem instantiateAux_kwargs_reject (w : WorldM) (kwargs : List (String × GameObjectM)) :
    ∀ (roles : List EventRoleTypeM) (rng : RNG) (e0 : LifeEvent) (i : Nat)
      (hi : i < roles.length) (cand : GameObjectM),
      lookupKw kwargs ((roles.get ⟨i, hi⟩).name) = some cand →
      hasComponentAll cand ((roles.get ⟨i, hi⟩).components) = false →
      (instantiateAux w kwargs roles rng e0).1 = none := by
  intro roles
  induction roles with
  | nil =>
    intro rng e0 i hi
    exact absurd hi (Nat.not_lt_zero i)
  | cons rt rest ih =>
    intro rng e0 i hi cand hlk hcomp
    unfold instantiateAux
    cases i with
    | zero =>
      have hlk0 : lookupKw kwargs rt.name = some cand := hlk
      have hcomp0 : hasComponentAll cand rt.components = false := hcomp
      have hfw : fill_role_with rt w e0 cand = none := by
        unfold fill_role_with
        rw [hcomp0]
        simp
      split
      next bound hkw =>
        rw [hlk0] at hkw
        injection hkw with hkw
        subst hkw
        split
        next r hfw2 => rw [hfw] at hfw2; cases hfw2
        next hfw2 => rfl
      next hkw =>
        rw [hlk0] at hkw
        cases hkw
    | succ j =>
      have hj : j < rest.length := Nat.lt_of_succ_lt_succ hi
      split
      next bound hkw =>
        split
        next r hfw => exact ih _ _ j hj cand hlk hcomp
        next hfw => rfl
      next hkw =>
        split
        next r rngB hfr => exact ih _ _ j hj cand hlk hcomp
        next rngB hfr => rfl

/-- C2 amended: `instantiate` is all-or-nothing — it returns either an
event with exactly one role per declared role type, bound in
declaration order, or nothing; each role bound from the caller's
kwargs or from the world's candidate enumeration satisfies its role's
required component set and filter predicate (the filter evaluated
against the event as bound so far), while a role bound by a custom
binder function is bound to the binder's result unchecked; and a
caller-supplied candidate that fails its role's component requirements
makes the whole instantiation return nothing. -/
theorem instantiate_bind_spec (et : LifeEventTypeM) (w : WorldM) (rng : RNG)
    (kwargs : List (String × GameObjectM)) :
    (∀ e rng2, instantiate et w rng kwargs = (some e, rng2) →
      e.name = et.name ∧ e.timestamp = w.timestamp
      ∧ e.roles.length = et.roles.length
      ∧ ∀ i (hi : i < et.roles.length) (hi2 : i < e.roles.length),
          roleOkAt w kwargs (et.roles.get ⟨i, hi⟩)
            ⟨et.name, w.timestamp, e.roles.take i⟩ (e.roles.get ⟨i, hi2⟩))
    ∧ (∀ i (hi : i < et.roles.length) (cand : GameObjectM),
        lookupKw kwargs ((et.roles.get ⟨i, hi⟩).name) = some cand →
        hasComponentAll cand ((et.roles.get ⟨i, hi⟩).components) = false →
        (instantiate et w rng kwargs).1 = none) := by
  constructor
  · intro e rng2 h
    obtain ⟨newRoles, heF, hlen, hidx⟩ :=
      instantiateAux_sound w kwargs et.roles rng ⟨et.name, w.timestamp, []⟩ e rng2 h
    have hroles : e.roles = newRoles := by rw [heF]; simp
    subst hroles
    refine ⟨by rw [heF], by rw [heF], hlen, ?_⟩
    intro i hi hi2
    exact hidx i hi hi2
  · intro i hi cand hlk hcomp
    exact instantiateAux_kwargs_reject w kwargs et.roles rng _ i hi cand hlk hcomp

/-- Witness for `instantiate_bind_spec`: a concrete successful
instantiation binding both declared roles in order. -/
theorem instantiate_bind_spec_witness :
    evDate.name = etTwo.name ∧ evDate.timestamp = wTwo.timestamp
    ∧ evDate.roles.length = etTwo.roles.length
    ∧ ∀ i (hi : i < etTwo.roles.length) (hi2 : i < evDate.roles.length),
        roleOkAt wTwo [] (etTwo.roles.get ⟨i, hi⟩)
          ⟨etTwo.name, wTwo.timestamp, evDate.roles.take i⟩ (evDate.roles.get ⟨i, hi2⟩) :=
  (instantiate_bind_spec etTwo wTwo rngZero []).1 evDate rngDateAfter rfl

/-- C1 counterexample: `LifeEventSimulator.process` consumes a
probability draw (`rng.random()`) for the event type even though its
role binding fails, refuting the claimed bind-then-draw order: the
float-stream position advances from 0 to 1. -/
theorem process_draws_before_binding : ¬ drawAfterBindClaim := by
  intro h
  have h2 := h stNoCand etNoCand rfl
  have h3 : (processEventType stNoCand etNoCand).rng.fpos = 1 := rfl
  rw [h3] at h2
  exact Nat.one_ne_zero h2

/-- C1 amended: for every registered life-event type attempted by the
per-step driver, the probability draw from the shared RNG is taken
first, before any role binding; only if the draw passes the type's
probability does the driver attempt to bind roles (binding consumes RNG
only from the post-draw state), and a successfully bound event is then
unconditionally executed and appended to the event log; when the draw
fails, binding is never attempted and nothing is executed or logged. -/
theorem process_gate_then_bind (st : SimState) (et : LifeEventTypeM) (x : ℚ) (rng1 : RNG)
    (hdraw : rngRandom st.rng = (x, rng1)) :
    (¬ x < et.probability → processEventType st et = { st with rng := rng1 })
    ∧ (x < et.probability → ∀ rng2, instantiate et st.world rng1 [] = (none, rng2) →
        processEventType st et = { st with rng := rng2 })
    ∧ (x < et.probability → ∀ e rng2, instantiate et st.world rng1 [] = (some e, rng2) →
        processEventType st et =
          { world := execApply et st.world e, rng := rng2, log := st.log ++ [e] }) := by
  have hP : processEventType st et =
      if x < et.probability then try_execute_event { st with rng := rng1 } et
      else { st with rng := rng1 } := by
    unfold processEventType
    rw [hdraw]
  refine ⟨?_, ?_, ?_⟩
  · intro hlt
    rw [hP, if_neg hlt]
  · intro hlt rng2 hinst
    rw [hP, if_pos hlt]
    unfold try_execute_event
    rw [show ({ st with rng := rng1 } : SimState).rng = rng1 from rfl] at *
    rw [hinst]
  · intro hlt e rng2 hinst
    rw [hP, if_pos hlt]
    unfold try_execute_event
    rw [show ({ st with rng := rng1 } : SimState).rng = rng1 from rfl] at *
    rw [hinst]

/-- Witness for `process_gate_then_bind`: a passing draw followed by a
successful binding executes and logs the event. -/
theorem process_gate_then_bind_witness :
    processEventType stOneCand etOneCand =
      { world := stOneCand.world, rng := rngAfterBind, log := [evBirth] } :=
  (process_gate_then_bind stOneCand etOneCand 0 rngAfterDraw rfl).2.2 (by norm_num [etOneCand])
    evBirth rngAfterBind rfl

/-- Destroying a sequence of gameobjects never revives one: a
gameobject already gone stays gone. -/
theorem destroyAll_preserve :
    ∀ (seq : List Nat) (al : Nat → Bool) (x : Nat), al x = false → destroyAll al seq x = false := by
  intro seq
  induction seq with
  | nil => intro al x hx; exact hx
  | cons u rest ih =>
    intro al x hx
    unfold destroyAll
    rw [List.foldl_cons]
    refine ih _ x ?_
    by_cases hxu : x = u
    · simp [hxu]
    · simp [hxu, hx]

/-- Every gameobject of a destruction sequence is gone after the
sequence runs. -/
theorem destroyAll_mem :
    ∀ (seq : List Nat) (al : Nat → Bool) (u : Nat), u ∈ seq → destroyAll al seq u = false := by
  intro seq
  induction seq with
  | nil => intro al u hu; cases hu
  | cons v rest ih =>
    intro al u hu
    rcases List.mem_cons.mp hu with h1 | h2
    · subst h1
      unfold destroyAll
      rw [List.foldl_cons]
      refine destroyAll_preserve rest _ u ?_
      simp
    · exact ih _ u h2

/-- The deferred-removal fold over the destruction queue never revives
a gameobject. -/
theorem hclearFold_preserve :
    ∀ (dead : List Nat) (roots : List GTree) (al : Nat → Bool) (x : Nat), al x = false →
      (dead.foldl (fun al2 gid =>
        match findSubtreeForest gid roots with
        | some t => destroyAll al2 (destroySeq t)
        | none => fun y => if y = gid then false else al2 y) al) x = false := by
  intro dead
  induction dead with
  | nil => intro roots al x hx; exact hx
  | cons g rest ih =>
    intro roots al x hx
    rw [List.foldl_cons]
    refine ih roots _ x ?_
    cases hfs : findSubtreeForest g roots with
    | some t =>
      simp only [hfs]
      exact destroyAll_preserve _ al x hx
    | none =>
      simp only [hfs]
      by_cases hxg : x = g
      · simp [hxg]
      · simp [hxg, hx]

mutual

/-- A located subtree is rooted at the uid searched for. -/
theorem findSubtree_root (gid : Nat) :
    ∀ (t t2 : GTree), findSubtree gid t = some t2 → rootUid t2 = gid
  | .node uid cs, t2, h => by
    unfold findSubtree at h
    split at h
    next heq =>
      injection h with h
      rw [← h]
      exact heq
    next heq => exact findSubtreeForest_root gid cs t2 h

/-- A subtree located in a forest is rooted at the uid searched for. -/
theorem findSubtreeForest_root (gid : Nat) :
    ∀ (ts : List GTree) (t2 : GTree), findSubtreeForest gid ts = some t2 → rootUid t2 = gid
  | [], t2, h => by cases h
  | t :: ts, t2, h => by
    unfold findSubtreeForest at h
    split at h
    next t3 heq =>
      injection h with h
      rw [← h]
      exact findSubtree_root gid t t3 heq
    next heq => exact findSubtreeForest_root gid ts t2 h

end

/-- C7 (spec-modelled, the hierarchy-aware `GameObjectManager` ECS not
being under `src/`): when a destroyed gameobject has children via the
parent/child relation, the deferred-removal pass destroys its whole
subtree — every transitive child before the parent, the parent last —
so after the pass at the start of the next step neither the parent nor
any of its transitive children exist in the world. -/
theorem destroy_children_spec (w : HWorld) (gid : Nat) (t : GTree)
    (hq : gid ∈ w.dead) (hf : findSubtreeForest gid w.roots = some t) :
    (∀ u ∈ destroySeq t, hHasGameobject (hClearDead w) u = false)
    ∧ destroySeq t = destroySeqForest (childTrees t) ++ [rootUid t]
    ∧ rootUid t = gid := by
  refine ⟨?_, ?_, findSubtreeForest_root gid w.roots t hf⟩
  · intro u hu
    unfold hHasGameobject hClearDead
    obtain ⟨l1, l2, hsplit⟩ := List.append_of_mem hq
    rw [hsplit, List.foldl_append, List.foldl_cons]
    simp only [hf]
    exact hclearFold_preserve l2 w.roots _ u (destroyAll_mem _ _ u hu)
  · cases t
    unfold destroySeq
    rfl

/-- Witness for `destroy_children_spec` at the concrete world `wFam`:
destroying gameobject 3 removes 4, 5 and then 3 itself. -/
theorem destroy_children_spec_witness :
    ((∀ u ∈ destroySeq treeFam, hHasGameobject (hClearDead wFam) u = false)
     ∧ destroySeq treeFam = destroySeqForest (childTrees treeFam) ++ [rootUid treeFam]
     ∧ rootUid treeFam = 3)
    ∧ destroySeq treeFam = [4, 5, 3] :=
  ⟨destroy_children_spec wFam 3 treeFam (by simp [wFam])
    (by simp [wFam, treeFam, findSubtreeForest, findSubtree]),
   by simp [treeFam, destroySeq, destroySeqForest]⟩

/-- Ids already deleted from the map stay deleted for the rest of the
`_clear_dead_gameobjects` loop: no iteration re-inserts a gameobject. -/
theorem clearDeadAux_mono :
    ∀ (l : List Nat) (gos gos2 : Nat → Option GameObjectE),
      clearDeadAux gos l = some gos2 → ∀ x, gos x = none → gos2 x = none := by
  intro l
  induction l with
  | nil =>
    intro gos gos2 h x hx
    unfold clearDeadAux at h
    injection h with h
    rw [← h]
    exact hx
  | cons gid rest ih =>
    intro gos gos2 h x hx
    unfold clearDeadAux at h
    cases hg : gos gid with
    | none => rw [hg] at h; cases h
    | some g =>
      rw [hg] at h
      refine ih _ _ h x ?_
      by_cases hxg : x = gid
      · simp [hxg]
      · simp [hxg, hx]

/-- When the `_clear_dead_gameobjects` loop completes, every queued id
has been removed from the gameobject map. -/
theorem clearDeadAux_kills :
    ∀ (l : List Nat) (gos gos2 : Nat → Option GameObjectE),
      clearDeadAux gos l = some gos2 → ∀ g ∈ l, gos2 g = none := by
  intro l
  induction l with
  | nil =>
    intro gos gos2 _ g hg
    cases hg
  | cons gid rest ih =>
    intro gos gos2 h g hg
    unfold clearDeadAux at h
    cases hgid : gos gid with
    | none => rw [hgid] at h; cases h
    | some g0 =>
      rw [hgid] at h
      rcases List.mem_cons.mp hg with hg1 | hg2
      · subst hg1
        exact clearDeadAux_mono rest _ _ h g (by simp)
      · exact ih _ _ h g hg2

/-- C5: destroying a gameobject during a step does not remove it from
the world's map during that step — `delete_gameobject` leaves
`_gameobjects` untouched, so `has_gameobject` and all queries are
unchanged — and `step()` purges every gameobject queued for destruction
before any system runs: the systems of the next step observe the purged
world, whose destruction queue is empty and in which no queued
gameobject remains. -/
theorem deferred_destruction_spec (w : WorldE) (sys : List (WorldE → WorldE)) (gid : Nat) :
    ((delete_gameobject w gid).gameobjects = w.gameobjects)
    ∧ (∀ g2, has_gameobject (delete_gameobject w gid) g2 = has_gameobject w g2)
    ∧ (∀ w2, clearDead w = some w2 →
        step w sys = some (runSystems w2 sys)
        ∧ w2.dead = []
        ∧ ∀ g ∈ w.dead, has_gameobject w2 g = false) := by
  refine ⟨rfl, fun _ => rfl, ?_⟩
  intro w2 h
  refine ⟨?_, ?_, ?_⟩
  · unfold step
    rw [h]
    rfl
  · unfold clearDead at h
    cases haux : clearDeadAux w.gameobjects w.dead with
    | none => rw [haux] at h; cases h
    | some gos2 =>
      rw [haux] at h
      injection h with h
      rw [← h]
  · intro g hgdead
    unfold clearDead at h
    cases haux : clearDeadAux w.gameobjects w.dead with
    | none => rw [haux] at h; cases h
    | some gos2 =>
      rw [haux] at h
      injection h with h
      unfold has_gameobject
      rw [← h]
      simp [clearDeadAux_kills _ _ _ haux g hgdead]

/-- Witness for `deferred_destruction_spec` at the concrete world
`wStep`. -/
theorem deferred_destruction_spec_witness :
    step wStep [] = some (runSystems wStepPurged [])
    ∧ wStepPurged.dead = []
    ∧ ∀ g ∈ wStep.dead, has_gameobject wStepPurged g = false :=
  (deferred_destruction_spec wStep [] 1).2.2 wStepPurged rfl

/-- C6: destroying the same gameobject twice is not a no-op — the id is
queued twice, and the next step's `_clear_dead_gameobjects` pass raises
a `KeyError` (modelled as `none`) on the duplicate entry, while after a
single destroy the pass completes normally. -/
theorem double_destroy_keyerror :
    clearDead (delete_gameobject (delete_gameobject wDouble 1) 1) = none
    ∧ (clearDead (delete_gameobject wDouble 1)).isSome = true :=
  ⟨rfl, rfl⟩

/-- C9: `remove_resource` raises `ResourceNotFoundError` (modelled as
`none`, the registry untouched since the failing `del` does not modify
the dict) exactly when no resource of the type is registered; and after
`add_resource` followed by `remove_resource` of the same type, the
registry no longer holds that type, so `has_resource` returns false —
in particular the remove after the add succeeds. -/
theorem remove_resource_spec (w : WorldE) (rtype : String) (inst : Nat) :
    (remove_resource w rtype = none ↔ has_resource w rtype = false)
    ∧ (∀ w2, remove_resource (add_resource w rtype inst) rtype = some w2 →
        has_resource w2 rtype = false)
    ∧ (remove_resource (add_resource w rtype inst) rtype).isSome = true := by
  refine ⟨?_, ?_, ?_⟩
  · unfold remove_resource has_resource
    cases h : w.resources rtype <;> simp
  · intro w2 h
    unfold remove_resource add_resource at h
    simp only [if_pos] at h
    injection h with h
    unfold has_resource
    rw [← h]
    simp
  · unfold remove_resource add_resource
    simp

/-- The archive removal walk, as a filter: folding the conditional
`remove_component` calls over a snapshot `s` keeps exactly the
components whose type is not that of some `remove_on_archive`-tagged
component of `s`. -/
theorem archive_fold_eq (s : List ComponentE) :
    ∀ l : List ComponentE,
      (s.foldl (fun g2 c => if c.removeOnArchive then removeComponentGO g2 c.ctype else g2)
        (⟨l⟩ : GameObjectE)).comps
      = l.filter (fun c => !(s.any (fun c2 => c2.removeOnArchive && (c.ctype == c2.ctype)))) := by
  induction s with
  | nil => intro l; simp
  | cons c s ih =>
    intro l
    simp only [List.foldl_cons]
    by_cases hc : c.removeOnArchive
    · rw [if_pos hc]
      show (s.foldl _ (⟨l.filter (fun x => x.ctype != c.ctype)⟩ : GameObjectE)).comps = _
      rw [ih, List.filter_filter]
      apply List.filter_congr
      intro x _
      cases hx : x.ctype == c.ctype <;> simp [hc, hx, bne]
    · rw [if_neg hc, ih]
      apply List.filter_congr
      intro x _
      simp [hc]

/-- C8: `archive()` strips exactly the components whose type is tagged
`remove_on_archive` and leaves the others (the persistent ones)
attached, and the gameobject itself stays in the world's map.  The
hypothesis is the component-dict invariant: at most one component per
type. -/
theorem archive_spec (w : WorldE) (gid : Nat) (g : GameObjectE)
    (hnd : (g.comps.map ComponentE.ctype).Nodup) :
    (archiveGO g).comps = g.comps.filter (fun c => !c.removeOnArchive)
    ∧ ∀ g2, has_gameobject (archiveWorld w gid) g2 = has_gameobject w g2 := by
  constructor
  · obtain ⟨l⟩ := g
    show (l.reverse.foldl _ (⟨l⟩ : GameObjectE)).comps = _
    rw [archive_fold_eq]
    apply List.filter_congr
    intro x hx
    rw [List.any_reverse]
    cases hxa : x.removeOnArchive
    · have hany : l.any (fun c2 => c2.removeOnArchive && (x.ctype == c2.ctype)) = false := by
        rw [List.any_eq_false]
        intro c2 hc2 hcontra
        rw [Bool.and_eq_true] at hcontra
        obtain ⟨hrem, heq⟩ := hcontra
        have hxc : x = c2 := List.inj_on_of_nodup_map hnd hx hc2 (by simpa using heq)
        rw [← hxc, hxa] at hrem
        cases hrem
      simp [hany, hxa]
    · have hany : l.any (fun c2 => c2.removeOnArchive && (x.ctype == c2.ctype)) = true :=
        List.any_eq_true.mpr ⟨x, hx, by simp [hxa]⟩
      simp [hany, hxa]
  · intro g2
    unfold has_gameobject archiveWorld
    by_cases h : g2 = gid
    · simp [h]
    · simp [h]

/-- Witness for `archive_spec` at the concrete gameobject `gArch`. -/
theorem archive_spec_witness :
    ((archiveGO gArch).comps = gArch.comps.filter (fun c => !c.removeOnArchive)
     ∧ ∀ g2, has_gameobject (archiveWorld wArch 1) g2 = has_gameobject wArch g2)
    ∧ (archiveGO gArch).comps = [⟨"GameCharacter", false⟩] :=
  ⟨archive_spec wArch 1 gArch (by decide), rfl⟩

/-- Witness for `remove_resource_spec` at a concrete empty registry and
the resource type name `SimDateTime`. -/
theorem remove_resource_spec_witness :
    ((remove_resource wRes "SimDateTime" = none ↔ has_resource wRes "SimDateTime" = false)
     ∧ (∀ w2, remove_resource (add_resource wRes "SimDateTime" 3) "SimDateTime" = some w2 →
         has_resource w2 "SimDateTime" = false)
     ∧ (remove_resource (add_resource wRes "SimDateTime" 3) "SimDateTime").isSome = true)
    ∧ has_resource wRes "SimDateTime" = false :=
  ⟨remove_resource_spec wRes "SimDateTime" 3, rfl⟩

end Neighborly
